import Mathlib

/-!
Verification of the configuration-sync subsystem of the anvil CLI
(repository 0xjuanma/anvil), shallowly embedded in Lean.

The embedding has three layers:

1. A trace model of the push orchestration: every external command that a
   function consults is an explicit field of `PushEnv`, and every function
   returns its Go result together with the list of `GitAction`s it performed,
   in order.  This mirrors `verifyRepositoryPrivacy`, `PushConfig`,
   `performPushOperation` (internal/github), `ensureRepositoryReady`,
   `ensureCleanState`, `commitChanges`, `pushBranch`, and the cmd-level
   helpers `cleanupOnError`, `handleUserConfirmation`, `prepareDiffPreview`,
   `executeCommonPushStages`, `performPushOperation` (cmd/config/push) and
   `pushAppConfig`.

2. A git-state model (`GitState`) for `ensureCleanState`, tracking the last
   commit, the index and the working tree as association lists.

3. A filesystem model (`FSNode`/`FSEntries`) for the change detector
   (`checkForChanges`, `handleNewApp`, `hasFileOrDirChanges`,
   `hasDirectoryChanges`, `hasFileChanges`) and the staging copy
   (`copyDirectoryContents`).
-/

deriving instance DecidableEq for Except

/-- Result of one external command, as observed by the Go call sites: `err`
models a non-nil Go error returned by `system.RunCommandWithTimeout`,
`success` models `result.Success`, `exitCode` models `result.ExitCode` and
`output` models `result.Output`. -/
structure ExecResult where
  err : Bool
  success : Bool
  exitCode : Int
  output : String
deriving DecidableEq, Repr

/-- Actions performed against the remote or the working copy, recorded in
order.  Probe actions (`probeAuth`, `probePublic`) are read-only network
checks; `previewDiff` and `confirmPrompt` are the diff preview and the
interactive confirmation; all the rest mutate the working copy. -/
inductive GitAction where
  | probeAuth
  | probePublic (url : String)
  | cloneRepo
  | checkoutTracked
  | pullLatest
  | stagedCheck
  | statusCheck
  | resetIndex
  | cleanUntrackedFiles
  | createBranch (name : String)
  | mkdirTarget
  | copyFiles
  | gitAdd
  | commitDiffCheck
  | commitAct
  | pushAct (name : String)
  | cleanup
  | previewDiff
  | confirmPrompt
deriving DecidableEq, Repr

/-- An action is a working-copy mutation when it is anything other than the
two read-only privacy probes, the two staged-state checks, the diff preview
and the confirmation prompt. -/
def GitAction.isMutation : GitAction → Bool
  | .cloneRepo | .checkoutTracked | .pullLatest | .resetIndex
  | .cleanUntrackedFiles | .createBranch _ | .mkdirTarget | .copyFiles
  | .gitAdd | .commitAct | .pushAct _ | .cleanup => true
  | _ => false

/-- Error taxonomy of the push pipeline, following the fmt.Errorf /
errors.New* sites in the source. -/
inductive PushErr where
  | securityBlockAuth
  | securityBlockPublic
  | repoAccess (stage : String)
  | installErr (stage : String)
  | fsErr (stage : String)
  | noChangesToCommit
  | changeCheckErr (msg : String)
  | installWrap (e : PushErr)
deriving DecidableEq, Repr

/-- An error is a security block when it comes from the privacy gate. -/
def PushErr.isSecurityBlock : PushErr → Bool
  | .securityBlockAuth | .securityBlockPublic => true
  | _ => false

/-- Diff preview summary; only its presence or absence matters to the
orchestration, so the counts are kept abstract. -/
structure DiffSummary where
  filesChanged : Nat
deriving DecidableEq, Repr

/-- Environment of one push invocation: the outcome of every external
command or collaborator the pipeline consults, keyed by call site. -/
structure PushEnv where
  /-- Outcome of `git ls-remote authenticatedURL HEAD` in
  `verifyRepositoryPrivacy`. -/
  lsRemote : ExecResult
  /-- Outcome of `curl -s -f -I` against the public web URL in
  `verifyRepositoryPrivacy`. -/
  curlProbe : ExecResult
  /-- Whether a valid clone already exists at LocalPath (consulted by
  `CloneRepository`, which is modelled from the spec). -/
  localCloneExists : Bool
  /-- Outcome of `git clone` when run. -/
  cloneRun : ExecResult
  /-- Outcome of `git checkout <branch>` in `switchToMainBranch`. -/
  checkoutMain : ExecResult
  /-- Outcome of `git pull` (PullChanges, modelled from the spec). -/
  pullRun : ExecResult
  /-- Outcome of `git diff --cached --exit-code` in `ensureCleanState`. -/
  stagedDiff : ExecResult
  /-- Outcome of `git status --porcelain` in `ensureCleanState`. -/
  statusRun : ExecResult
  /-- Outcome of `git reset HEAD` in `ensureCleanState`. -/
  resetRun : ExecResult
  /-- Outcome of `git clean -fd` in `ensureCleanState`. -/
  cleanRun : ExecResult
  /-- Outcome of `checkForChanges` (filesystem comparison). -/
  changeCheck : Except String Bool
  /-- Outcome of `git checkout -b <name>` in `createAndCheckoutBranch`. -/
  branchRun : ExecResult
  /-- Whether `utils.EnsureDirectory` on the target directory succeeds. -/
  mkdirOk : Bool
  /-- Whether `copyConfigToRepo` succeeds. -/
  copyOk : Bool
  /-- Whether `configureGitUser` succeeds. -/
  configUserOk : Bool
  /-- Outcome of `git add .` in `commitChanges`. -/
  addRun : ExecResult
  /-- Outcome of `git diff --cached --exit-code` in `commitChanges`. -/
  commitDiff : ExecResult
  /-- Outcome of `git commit -m` in `commitChanges`. -/
  commitRun : ExecResult
  /-- Outcome of `git push --set-upstream origin <name>` in `pushBranch`. -/
  pushRun : ExecResult
  /-- Outcome of `getCommittedFiles`. -/
  committedFiles : Except String (List String)
  /-- Outcome of `GetDiffPreview` (modelled from the spec, section 4.5:
  produces a preview or an error). -/
  diffPreview : Except String DiffSummary
  /-- Answer of the interactive confirmation prompt. -/
  confirm : Bool
  /-- The generated timestamped branch name
  (`generateTimestampedBranchName "config-push"` applied to the clock). -/
  branchName : String
deriving DecidableEq, Repr

/-- Whitespace test for the TrimSpace model. -/
def isSpaceChar (c : Char) : Bool :=
  c = ' ' || c = '\t' || c = '\n' || c = '\r'

/-- Model of Go strings.TrimSpace on Lean strings. -/
def trimSpace (s : String) : String :=
  ⟨((s.data.dropWhile isSpaceChar).reverse.dropWhile isSpaceChar).reverse⟩

/-- Substring test on character lists, modelling Go strings.Contains. -/
def charsStartWith : List Char → List Char → Bool
  | _, [] => true
  | [], _ :: _ => false
  | c :: s, d :: p => c = d && charsStartWith s p

/-- Containment of `pat` in `s`, modelling Go strings.Contains. -/
def charsContain : List Char → List Char → Bool
  | [], pat => pat.isEmpty
  | c :: s, pat => charsStartWith (c :: s) pat || charsContain s pat

/-- Go `strings.Contains s pat` on Lean strings. -/
def containsSub (s pat : String) : Bool :=
  charsContain s.data pat.data

/-- URL used by the unauthenticated public probe in
`verifyRepositoryPrivacy`: the literal prefix is always prepended to
`gc.RepoURL` (source: `fmt.Sprintf("https://github.com/%s", gc.RepoURL)`). -/
def probeURL (repoURL : String) : String :=
  "https://github.com/" ++ repoURL

/-- Model of `getRepositoryURL` (internal/system/tools.go): a RepoURL that
already contains "://" is returned unchanged, otherwise the GitHub prefix is
prepended. -/
def getRepositoryURL (repoURL : String) : String :=
  if containsSub repoURL "://" then repoURL
  else "https://github.com/" ++ repoURL

/-- Model of `verifyRepositoryPrivacy`: first the authenticated
`git ls-remote` check (hard stop on failure), then the unauthenticated curl
probe of the public web URL (hard stop on success). -/
def verifyRepositoryPrivacy (repoURL : String) (env : PushEnv) :
    Except PushErr Unit × List GitAction :=
  if env.lsRemote.err || !env.lsRemote.success then
    (.error .securityBlockAuth, [.probeAuth])
  else if !env.curlProbe.err && env.curlProbe.success then
    (.error .securityBlockPublic, [.probeAuth, .probePublic (probeURL repoURL)])
  else
    (.ok (), [.probeAuth, .probePublic (probeURL repoURL)])

/-- Modelled from the spec: `CloneRepository` is not under src (only its
callers are); section 4.2 `ensureCloned()` clones only when the local clone
is absent or invalid and otherwise no-ops, failing with a repository access
error when the clone command fails. -/
def cloneRepository (env : PushEnv) : Except PushErr Unit × List GitAction :=
  if env.localCloneExists then (.ok (), [])
  else if env.cloneRun.err then (.error (.repoAccess "clone"), [.cloneRepo])
  else (.ok (), [.cloneRepo])

/-- Model of `switchToMainBranch`: `git checkout <branch>`, error on
command failure. -/
def switchToMainBranch (env : PushEnv) : Except PushErr Unit × List GitAction :=
  if env.checkoutMain.err then (.error (.installErr "git-checkout-main"), [.checkoutTracked])
  else (.ok (), [.checkoutTracked])

/-- Modelled from the spec: `PullChanges` is not under src; section 4.2
`pullLatest()` fast-forwards the tracked branch and fails with a repository
access error on conflict or network failure. -/
def pullChanges (env : PushEnv) : Except PushErr Unit × List GitAction :=
  if env.pullRun.err then (.error (.repoAccess "pull"), [.pullLatest])
  else (.ok (), [.pullLatest])

/-- Model of `ensureCleanState` at the trace level: reset the index when the
staged diff command reports differences (err and non-zero exit), then clean
untracked files when `git status --porcelain` output is non-empty. -/
def ensureCleanStateTr (env : PushEnv) : Except PushErr Unit × List GitAction :=
  let part1 : Except PushErr Unit × List GitAction :=
    if env.stagedDiff.err && env.stagedDiff.exitCode != 0 then
      if env.resetRun.err then (.error (.installErr "git-reset"), [.stagedCheck, .resetIndex])
      else (.ok (), [.stagedCheck, .resetIndex])
    else (.ok (), [.stagedCheck])
  match part1 with
  | (.error e, tr) => (.error e, tr)
  | (.ok _, tr) =>
    if env.statusRun.err then (.error (.installErr "git-status"), tr ++ [.statusCheck])
    else if trimSpace env.statusRun.output != "" then
      if env.cleanRun.err then
        (.error (.installErr "git-clean"), tr ++ [.statusCheck, .cleanUntrackedFiles])
      else (.ok (), tr ++ [.statusCheck, .cleanUntrackedFiles])
    else (.ok (), tr ++ [.statusCheck])

/-- Model of `ensureRepositoryReady`: clone, switch to the tracked branch,
pull, then ensure a clean state; the first failure aborts the sequence. -/
def ensureRepositoryReady (env : PushEnv) : Except PushErr Unit × List GitAction :=
  match cloneRepository env with
  | (.error e, t1) => (.error e, t1)
  | (.ok _, t1) =>
    match switchToMainBranch env with
    | (.error e, t2) => (.error e, t1 ++ t2)
    | (.ok _, t2) =>
      match pullChanges env with
      | (.error e, t3) => (.error e, t1 ++ t2 ++ t3)
      | (.ok _, t3) =>
        match ensureCleanStateTr env with
        | (.error e, t4) => (.error e, t1 ++ t2 ++ t3 ++ t4)
        | (.ok _, t4) => (.ok (), t1 ++ t2 ++ t3 ++ t4)

/-- Model of `commitChanges`: configure the git user, `git add .`, check the
staged diff, fail with the distinct no-changes error when the diff exits 0,
otherwise commit. -/
def commitChangesTr (env : PushEnv) : Except PushErr Unit × List GitAction :=
  if !env.configUserOk then (.error (.installErr "git-config"), [])
  else if env.addRun.err then (.error (.installErr "git-add"), [.gitAdd])
  else if env.commitDiff.err then
    (.error (.installErr "git-diff-check"), [.gitAdd, .commitDiffCheck])
  else if env.commitDiff.exitCode == 0 then
    (.error .noChangesToCommit, [.gitAdd, .commitDiffCheck])
  else if env.commitRun.err then
    (.error (.installErr "git-commit"), [.gitAdd, .commitDiffCheck, .commitAct])
  else (.ok (), [.gitAdd, .commitDiffCheck, .commitAct])

/-- Model of `pushBranch`: `git push --set-upstream origin <name>`. -/
def pushBranchTr (env : PushEnv) : Except PushErr Unit × List GitAction :=
  if env.pushRun.err then (.error (.installErr "git-push"), [.pushAct env.branchName])
  else (.ok (), [.pushAct env.branchName])

/-- Result record of a successful push (`PushConfigResult`). -/
structure PushConfigResult where
  branchName : String
  commitMessage : String
  repositoryURL : String
  filesCommitted : List String
deriving DecidableEq, Repr

/-- Model of the github-level `performPushOperation`: branch, mkdir, copy,
commit, push, then enumerate committed files (with the directory-name
fallback). -/
def performPushOperationGit (repoURL appName : String) (env : PushEnv) :
    Except PushErr PushConfigResult × List GitAction :=
  if env.branchRun.err then
    (.error (.installErr "git-checkout-new-branch"), [.createBranch env.branchName])
  else
    let t0 : List GitAction := [.createBranch env.branchName]
    if !env.mkdirOk then (.error (.fsErr "mkdir-app"), t0 ++ [.mkdirTarget])
    else if !env.copyOk then (.error (.fsErr "copy"), t0 ++ [.mkdirTarget, .copyFiles])
    else
      let t1 := t0 ++ [.mkdirTarget, .copyFiles]
      match commitChangesTr env with
      | (.error e, tc) => (.error e, t1 ++ tc)
      | (.ok _, tc) =>
        match pushBranchTr env with
        | (.error e, tp) => (.error e, t1 ++ tc ++ tp)
        | (.ok _, tp) =>
          let files := match env.committedFiles with
            | .ok fs => fs
            | .error _ => [appName ++ "/"]
          (.ok ⟨env.branchName, "anvil[push]: " ++ appName,
                getRepositoryURL repoURL, files⟩, t1 ++ tc ++ tp)

/-- Model of `PushConfig`: privacy gate, repository readiness, change check,
then the push operation; `ok none` is the no-changes outcome (Go returns
`nil, nil`). -/
def pushConfig (repoURL appName : String) (env : PushEnv) :
    Except PushErr (Option PushConfigResult) × List GitAction :=
  match verifyRepositoryPrivacy repoURL env with
  | (.error e, tr) => (.error e, tr)
  | (.ok _, tr) =>
    match ensureRepositoryReady env with
    | (.error e, t2) => (.error e, tr ++ t2)
    | (.ok _, t2) =>
      match env.changeCheck with
      | .error msg => (.error (.changeCheckErr msg), tr ++ t2)
      | .ok false => (.ok none, tr ++ t2)
      | .ok true =>
        match performPushOperationGit repoURL appName env with
        | (.error e, t3) => (.error e, tr ++ t2 ++ t3)
        | (.ok r, t3) => (.ok (some r), tr ++ t2 ++ t3)

/-- Model of the cmd-level `cleanupOnError`: `CleanupStagedChanges` is
invoked only when the error argument is non-nil; the error is returned
unchanged. -/
def cleanupOnError (e : Option PushErr) : Option PushErr × List GitAction :=
  match e with
  | some e0 => (some e0, [.cleanup])
  | none => (none, [])

/-- Model of `handleUserConfirmation`: ask for confirmation; on decline,
call `cleanupOnError` with a nil error and report false. -/
def handleUserConfirmation (env : PushEnv) : Bool × List GitAction :=
  if env.confirm then (true, [.confirmPrompt])
  else
    let cl := cleanupOnError none
    (false, [.confirmPrompt] ++ cl.2)

/-- Model of `prepareDiffPreview`: on a `GetDiffPreview` error it prints a
warning and returns a nil summary with a nil error; otherwise it returns the
summary. -/
def prepareDiffPreview (env : PushEnv) : Option DiffSummary × List GitAction :=
  match env.diffPreview with
  | .error _ => (none, [.previewDiff])
  | .ok d => (some d, [.previewDiff])

/-- Model of `executeCommonPushStages`: authentication setup (never fails
in a way that matters here), diff preview, then the confirmation gate.  The
result mirrors the Go triple (githubClient, diffSummary, error): the first
component is the client (none exactly when the user cancelled), the second
the possibly-nil diff summary. -/
def executeCommonPushStages (env : PushEnv) :
    (Option Unit × Option DiffSummary) × List GitAction :=
  let pd := prepareDiffPreview env
  let hc := handleUserConfirmation env
  if hc.1 then ((some (), pd.1), pd.2 ++ hc.2)
  else ((none, none), pd.2 ++ hc.2)

/-- Model of the cmd-level `performPushOperation`: run `PushAppConfig`
(which delegates to `PushConfig`); on error, wrap it as an installation
error and pass it through `cleanupOnError`; a nil result means the
configuration was up to date. -/
def performPushOperationCmd (repoURL appName : String) (env : PushEnv) :
    Option PushErr × List GitAction :=
  match pushConfig repoURL appName env with
  | (.error e, tr) =>
    let cl := cleanupOnError (some (.installWrap e))
    (cl.1, tr ++ cl.2)
  | (.ok _, tr) => (none, tr)

/-- Model of `pushAppConfig` from the common stages onward (configuration
loading and app-location resolution never touch the working copy and are
elided): when the diff summary is nil the function returns nil treating it
as a user cancellation, otherwise it performs the push operation. -/
def pushAppConfigCore (repoURL appName : String) (env : PushEnv) :
    Option PushErr × List GitAction :=
  let st := executeCommonPushStages env
  match st.1.2 with
  | none => (none, st.2)
  | some _ =>
    let op := performPushOperationCmd repoURL appName env
    (op.1, st.2 ++ op.2)

/-- A successful external command outcome. -/
def okExec : ExecResult := ⟨false, true, 0, ""⟩

/-- A failed external command outcome. -/
def errExec : ExecResult := ⟨true, false, 1, ""⟩

/-- Environment in which every command succeeds, the change check reports
changes, the preview succeeds and the operator confirms. -/
def happyEnv : PushEnv :=
  { lsRemote := okExec
    curlProbe := errExec
    localCloneExists := true
    cloneRun := okExec
    checkoutMain := okExec
    pullRun := okExec
    stagedDiff := okExec
    statusRun := okExec
    resetRun := okExec
    cleanRun := okExec
    changeCheck := .ok true
    branchRun := okExec
    mkdirOk := true
    copyOk := true
    configUserOk := true
    addRun := okExec
    commitDiff := ⟨false, true, 1, "diff"⟩
    commitRun := okExec
    pushRun := okExec
    committedFiles := .ok ["app/init.lua"]
    diffPreview := .ok ⟨1⟩
    confirm := true
    branchName := "config-push-05032025-1430" }

/-- Claim C1: whenever the unauthenticated HTTP probe of the public web URL
succeeds (the repository is publicly reachable), `PushConfig` returns a
security-block error and its action trace contains no working-copy
mutation: no clone, checkout, pull, branch creation, copy, commit or push
is attempted. -/
theorem pushConfig_public_blocks_without_mutation (repoURL appName : String)
    (env : PushEnv) (h1 : env.curlProbe.err = false)
    (h2 : env.curlProbe.success = true) :
    ∃ e, (pushConfig repoURL appName env).1 = Except.error e ∧
      e.isSecurityBlock = true ∧
      (pushConfig repoURL appName env).2.filter GitAction.isMutation = [] := by
  cases he : env.lsRemote.err with
  | true =>
    exact ⟨.securityBlockAuth, by
      simp [pushConfig, verifyRepositoryPrivacy, he, PushErr.isSecurityBlock,
        GitAction.isMutation, List.filter]⟩
  | false =>
    cases hs : env.lsRemote.success with
    | false =>
      exact ⟨.securityBlockAuth, by
        simp [pushConfig, verifyRepositoryPrivacy, he, hs,
          PushErr.isSecurityBlock, GitAction.isMutation, List.filter]⟩
    | true =>
      exact ⟨.securityBlockPublic, by
        simp [pushConfig, verifyRepositoryPrivacy, he, hs, h1, h2,
          PushErr.isSecurityBlock, GitAction.isMutation, List.filter]⟩

/-- Witness for C1: a concrete environment with a publicly reachable
repository. -/
theorem pushConfig_public_blocks_without_mutation_witness :
    ∃ e, (pushConfig "owner/cfg" "app"
        { happyEnv with curlProbe := okExec }).1 = Except.error e ∧
      e.isSecurityBlock = true ∧
      (pushConfig "owner/cfg" "app"
        { happyEnv with curlProbe := okExec }).2.filter GitAction.isMutation = [] :=
  pushConfig_public_blocks_without_mutation "owner/cfg" "app"
    { happyEnv with curlProbe := okExec } rfl rfl

/-- Claim C2: when the authenticated `git ls-remote` check fails (error or
unsuccessful result), the privacy gate returns the blocking
authentication-failure error and the unauthenticated public probe is never
consulted. -/
theorem verifyPrivacy_fails_closed (repoURL : String) (env : PushEnv)
    (h : env.lsRemote.err = true ∨ env.lsRemote.success = false) :
    (verifyRepositoryPrivacy repoURL env).1 =
      Except.error PushErr.securityBlockAuth ∧
    ∀ u, GitAction.probePublic u ∉ (verifyRepositoryPrivacy repoURL env).2 := by
  have hb : (env.lsRemote.err || !env.lsRemote.success) = true := by
    rcases h with h | h <;> simp [h]
  constructor
  · simp [verifyRepositoryPrivacy, hb]
  · intro u
    simp [verifyRepositoryPrivacy, hb]

/-- Witness for C2: a concrete environment with failing authentication. -/
theorem verifyPrivacy_fails_closed_witness :
    (verifyRepositoryPrivacy "owner/cfg" { happyEnv with lsRemote := errExec }).1 =
      Except.error PushErr.securityBlockAuth ∧
    ∀ u, GitAction.probePublic u ∉
      (verifyRepositoryPrivacy "owner/cfg" { happyEnv with lsRemote := errExec }).2 :=
  verifyPrivacy_fails_closed "owner/cfg" { happyEnv with lsRemote := errExec }
    (Or.inl rfl)

/-- Claim C10: the public probe URL is always the literal GitHub prefix
concatenated with the raw RepoURL, even when the RepoURL already contains
"://" (in which case `getRepositoryURL` leaves it unchanged and the two
differ); and when the probe against that malformed address fails, the gate
verdict is exactly the verdict of the authenticated check. -/
theorem probeURL_verbatim_concat (r : String) (env : PushEnv)
    (hr : containsSub r "://" = true)
    (hp : env.curlProbe.err = true ∨ env.curlProbe.success = false) :
    probeURL r = "https://github.com/" ++ r ∧
    getRepositoryURL r = r ∧
    probeURL r ≠ getRepositoryURL r ∧
    (verifyRepositoryPrivacy r env).1 =
      (if env.lsRemote.err || !env.lsRemote.success
        then Except.error PushErr.securityBlockAuth else Except.ok ()) ∧
    ((env.lsRemote.err || !env.lsRemote.success) = false →
      GitAction.probePublic (probeURL r) ∈ (verifyRepositoryPrivacy r env).2) := by
  have hget : getRepositoryURL r = r := by simp [getRepositoryURL, hr]
  refine ⟨rfl, hget, ?_, ?_, ?_⟩
  · rw [hget]
    intro h
    have h2 : ("https://github.com/".data ++ r.data).length = r.data.length :=
      congrArg (fun s : String => s.data.length) h
    have h19 : ("https://github.com/".data).length = 19 := rfl
    rw [List.length_append, h19] at h2
    omega
  · have hcb : (!env.curlProbe.err && env.curlProbe.success) = false := by
      rcases hp with h | h <;> simp [h]
    cases hb : (env.lsRemote.err || !env.lsRemote.success) with
    | true => simp [verifyRepositoryPrivacy, hb]
    | false => simp [verifyRepositoryPrivacy, hb, hcb]
  · intro hb
    have hcb : (!env.curlProbe.err && env.curlProbe.success) = false := by
      rcases hp with h | h <;> simp [h]
    simp [verifyRepositoryPrivacy, hb, hcb]

/-- Witness for C10: a RepoURL that is already a full URL, with a failing
public probe. -/
theorem probeURL_verbatim_concat_witness :
    probeURL "https://github.com/owner/cfg" =
      "https://github.com/" ++ "https://github.com/owner/cfg" ∧
    getRepositoryURL "https://github.com/owner/cfg" =
      "https://github.com/owner/cfg" ∧
    probeURL "https://github.com/owner/cfg" ≠
      getRepositoryURL "https://github.com/owner/cfg" ∧
    (verifyRepositoryPrivacy "https://github.com/owner/cfg" happyEnv).1 =
      (if happyEnv.lsRemote.err || !happyEnv.lsRemote.success
        then Except.error PushErr.securityBlockAuth else Except.ok ()) ∧
    ((happyEnv.lsRemote.err || !happyEnv.lsRemote.success) = false →
      GitAction.probePublic (probeURL "https://github.com/owner/cfg") ∈
        (verifyRepositoryPrivacy "https://github.com/owner/cfg" happyEnv).2) :=
  probeURL_verbatim_concat "https://github.com/owner/cfg" happyEnv
    (by decide) (Or.inl rfl)

/-- Environment in which the operator declines the confirmation prompt. -/
def declineEnv : PushEnv := { happyEnv with confirm := false }

/-- Environment in which diff-preview generation fails and the operator
confirms. -/
def previewFailEnv : PushEnv := { happyEnv with diffPreview := .error "diff failed" }

/-- Environment in which the commit-stage staged diff reports no
differences (exit code 0). -/
def noChangesEnv : PushEnv := { happyEnv with commitDiff := okExec }

/-- Claim C3 (divergence): when the operator declines the prompt, the
operation does return a neutral cancellation (nil error), but
`CleanupStagedChanges` is never invoked, because `handleUserConfirmation`
passes a nil error to `cleanupOnError`, which only cleans on non-nil
errors. -/
theorem decline_returns_nil_but_never_cleans :
    pushAppConfigCore "owner/cfg" "app" declineEnv =
      (none, [GitAction.previewDiff, GitAction.confirmPrompt]) ∧
    GitAction.cleanup ∉ (pushAppConfigCore "owner/cfg" "app" declineEnv).2 := by
  constructor
  · rfl
  · decide

/-- Claim C4 counterexample: in a concrete run reaching the commit stage
with nothing staged, the cmd-level `performPushOperation` returns a
propagated (wrapped) error, not the nil no-changes outcome the claim
asserts. -/
theorem commit_noChanges_is_error_counterexample :
    (performPushOperationCmd "owner/cfg" "app" noChangesEnv).1 =
      some (PushErr.installWrap PushErr.noChangesToCommit) ∧
    (performPushOperationCmd "owner/cfg" "app" noChangesEnv).1 ≠ none := by
  constructor
  · rfl
  · decide

/-- Claim C4 (amended): when the commit stage finds nothing staged after
the copy, the `noChangesToCommit` error is propagated upward as a wrapped
installation error (the operation fails); cleanup is invoked before the
error is returned. -/
theorem commit_noChanges_propagates (repoURL appName : String) (env : PushEnv)
    (hls1 : env.lsRemote.err = false) (hls2 : env.lsRemote.success = true)
    (hcurl : (!env.curlProbe.err && env.curlProbe.success) = false)
    (hready : (ensureRepositoryReady env).1 = Except.ok ())
    (hch : env.changeCheck = Except.ok true)
    (hbr : env.branchRun.err = false) (hmk : env.mkdirOk = true)
    (hcp : env.copyOk = true) (hcfg : env.configUserOk = true)
    (hadd : env.addRun.err = false) (hcd1 : env.commitDiff.err = false)
    (hcd2 : env.commitDiff.exitCode = 0) :
    (performPushOperationCmd repoURL appName env).1 =
      some (PushErr.installWrap PushErr.noChangesToCommit) ∧
    GitAction.cleanup ∈ (performPushOperationCmd repoURL appName env).2 := by
  have hverify : verifyRepositoryPrivacy repoURL env =
      (.ok (), [.probeAuth, .probePublic (probeURL repoURL)]) := by
    simp [verifyRepositoryPrivacy, hls1, hls2, hcurl]
  have hcommit : commitChangesTr env =
      (.error .noChangesToCommit, [.gitAdd, .commitDiffCheck]) := by
    simp [commitChangesTr, hcfg, hadd, hcd1, hcd2]
  rcases hre : ensureRepositoryReady env with ⟨r1, t1⟩
  rw [hre] at hready
  simp only at hready
  subst hready
  have hperf : (performPushOperationGit repoURL appName env).1 =
      Except.error PushErr.noChangesToCommit := by
    simp [performPushOperationGit, hbr, hmk, hcp, hcommit]
  rcases hpg : performPushOperationGit repoURL appName env with ⟨rg, tg⟩
  rw [hpg] at hperf
  simp only at hperf
  subst hperf
  constructor
  · simp [performPushOperationCmd, pushConfig, hverify, hre, hch, hpg,
      cleanupOnError]
  · simp [performPushOperationCmd, pushConfig, hverify, hre, hch, hpg,
      cleanupOnError]

/-- Witness for the amended C4 at the concrete no-changes environment. -/
theorem commit_noChanges_propagates_witness :
    (performPushOperationCmd "owner/cfg" "app" noChangesEnv).1 =
      some (PushErr.installWrap PushErr.noChangesToCommit) ∧
    GitAction.cleanup ∈ (performPushOperationCmd "owner/cfg" "app" noChangesEnv).2 :=
  commit_noChanges_propagates "owner/cfg" "app" noChangesEnv
    rfl rfl rfl rfl rfl rfl rfl rfl rfl rfl rfl rfl

/-- Claim C9 (divergence): when diff-preview generation fails and the
operator confirms, the operation returns nil (it does not fail), the
confirmation prompt is reached, but no branch creation, commit or push is
ever attempted: the push is silently skipped because the nil diff summary
is indistinguishable from a user cancellation. -/
theorem previewFail_confirmed_skips_push :
    pushAppConfigCore "owner/cfg" "app" previewFailEnv =
      (none, [GitAction.previewDiff, GitAction.confirmPrompt]) ∧
    GitAction.confirmPrompt ∈ (pushAppConfigCore "owner/cfg" "app" previewFailEnv).2 ∧
    (∀ n, GitAction.createBranch n ∉
      (pushAppConfigCore "owner/cfg" "app" previewFailEnv).2) ∧
    GitAction.commitAct ∉ (pushAppConfigCore "owner/cfg" "app" previewFailEnv).2 ∧
    (∀ n, GitAction.pushAct n ∉
      (pushAppConfigCore "owner/cfg" "app" previewFailEnv).2) := by
  refine ⟨rfl, by decide, ?_, by decide, ?_⟩
  · intro n
    show GitAction.createBranch n ∉ [GitAction.previewDiff, GitAction.confirmPrompt]
    simp
  · intro n
    show GitAction.pushAct n ∉ [GitAction.previewDiff, GitAction.confirmPrompt]
    simp
/-- A git snapshot: association list from file path to byte content. -/
abbrev FileMap := List (String × List Nat)

/-- Lookup of a path in a snapshot (first binding wins). -/
def lookupF : FileMap → String → Option (List Nat)
  | [], _ => none
  | (a, v) :: rest, k => if a = k then some v else lookupF rest k

/-- Extensional equality of two snapshots as finite maps. -/
def mapEq (a b : FileMap) : Bool :=
  (a.map Prod.fst ++ b.map Prod.fst).all
    (fun k => decide (lookupF a k = lookupF b k))

/-- Git working-copy state: the last commit of the tracked branch
(`headC`), the index (`indexC`) and the working tree (`worktreeC`). -/
structure GitState where
  headC : FileMap
  indexC : FileMap
  worktreeC : FileMap
deriving DecidableEq, Repr

/-- Semantics of `git reset HEAD`: the index returns to the last commit;
the working tree is untouched. -/
def gitResetHead (s : GitState) : GitState := { s with indexC := s.headC }

/-- Semantics of `git clean -fd`: untracked files (working-tree paths not
in the index) are removed; tracked files are untouched. -/
def gitCleanUntracked (s : GitState) : GitState :=
  { s with worktreeC := s.worktreeC.filter (fun e => (lookupF s.indexC e.1).isSome) }

/-- Modelled from the spec: `RunCommandWithTimeout` is not under src; per
section 4.1 the command runner never reports an error for a non-zero exit
(it only fails when the process cannot be started or the timeout elapses),
so `git diff --cached --exit-code` returns a nil error with exit code 0 and
success when the index matches HEAD, and a nil error with exit code 1 and
an unsuccessful result otherwise.  This is the same contract the commit
path relies on (`commitChanges` reads `result.ExitCode` after checking
`err` separately). -/
def runStagedDiffCheck (s : GitState) : ExecResult :=
  if mapEq s.indexC s.headC then ⟨false, true, 0, ""⟩
  else ⟨false, false, 1, "staged"⟩

/-- Semantics of `git status --porcelain`: empty output exactly when the
index matches HEAD and the working tree matches the index. -/
def runStatusPorcelain (s : GitState) : ExecResult :=
  ⟨false, true, 0,
    if mapEq s.indexC s.headC && mapEq s.worktreeC s.indexC then "" else " M f"⟩

/-- Model of `ensureCleanState` on the git state, mirroring the source: the
index is reset only when the staged diff command reports a non-nil error
together with a non-zero exit code, then untracked files are cleaned when
the porcelain status output is non-empty.  Under the section 4.1 runner
contract the reset guard never fires (the error is nil on exit code 1), and
no command reverts unstaged modifications of tracked files. -/
def ensureCleanState (s : GitState) : GitState :=
  let stagedResult := runStagedDiffCheck s
  let s1 := if stagedResult.err && stagedResult.exitCode != 0 then gitResetHead s else s
  let statusResult := runStatusPorcelain s1
  if trimSpace statusResult.output != "" then gitCleanUntracked s1 else s1

/-- Lookup misses keys that are not in the key list. -/
theorem lookupF_none_of_not_mem (l : FileMap) (k : String)
    (h : k ∉ l.map Prod.fst) : lookupF l k = none := by
  induction l with
  | nil => rfl
  | cons e rest ih =>
    obtain ⟨a, v⟩ := e
    simp only [List.map_cons, List.mem_cons] at h
    push_neg at h
    obtain ⟨h1, h2⟩ := h
    simp only [lookupF]
    rw [if_neg (fun hh => h1 hh.symm)]
    exact ih h2

/-- `mapEq` holds exactly when the two snapshots agree on every lookup. -/
theorem mapEq_iff (a b : FileMap) :
    mapEq a b = true ↔ ∀ k, lookupF a k = lookupF b k := by
  constructor
  · intro h k
    rw [mapEq, List.all_eq_true] at h
    by_cases hk : k ∈ a.map Prod.fst ++ b.map Prod.fst
    · exact of_decide_eq_true (h k hk)
    · rw [List.mem_append] at hk
      push_neg at hk
      rw [lookupF_none_of_not_mem a k hk.1, lookupF_none_of_not_mem b k hk.2]
  · intro h
    rw [mapEq, List.all_eq_true]
    intro k _
    exact decide_eq_true (h k)

/-- `mapEq` is reflexive. -/
theorem mapEq_refl (a : FileMap) : mapEq a a = true :=
  (mapEq_iff a a).mpr (fun _ => rfl)

/-- Lookup in a key-filtered snapshot. -/
theorem lookupF_filter (l : FileMap) (p : String → Bool) (k : String) :
    lookupF (l.filter (fun e => p e.1)) k =
      if p k then lookupF l k else none := by
  induction l with
  | nil => simp [lookupF]
  | cons e rest ih =>
    obtain ⟨a, v⟩ := e
    by_cases hka : a = k
    · subst hka
      by_cases hp : p a
      · simp [List.filter_cons, hp, lookupF]
      · simp only [List.filter_cons]
        rw [if_neg (by simp [hp])]
        rw [ih]
        simp [hp]
    · by_cases hp : p a
      · simp only [List.filter_cons]
        rw [if_pos (by simp [hp])]
        simp only [lookupF]
        rw [if_neg hka, ih]
        simp [hka]
      · simp only [List.filter_cons]
        rw [if_neg (by simp [hp])]
        rw [ih]
        by_cases hpk : p k
        · simp only [hpk, ite_true, lookupF]
          rw [if_neg hka]
        · simp [hpk]

/-- Lookup after cleaning untracked entries against an index. -/
theorem lookupF_clean (idx l : FileMap) (k : String) :
    lookupF (l.filter (fun e => (lookupF idx e.1).isSome)) k =
      if (lookupF idx k).isSome then lookupF l k else none :=
  lookupF_filter l (fun y => (lookupF idx y).isSome) k

/-- Properties of `git clean -fd`: index and commit untouched, every
surviving working-tree path is tracked, and tracked paths keep their
working-tree content. -/
theorem cleanUntracked_props (s : GitState) :
    (gitCleanUntracked s).indexC = s.indexC ∧
    (gitCleanUntracked s).headC = s.headC ∧
    (∀ k, (lookupF (gitCleanUntracked s).worktreeC k).isSome = true →
      (lookupF s.indexC k).isSome = true) ∧
    (∀ k, (lookupF s.indexC k).isSome = true →
      lookupF (gitCleanUntracked s).worktreeC k = lookupF s.worktreeC k) := by
  refine ⟨rfl, rfl, ?_, ?_⟩
  · intro k h
    have hl := lookupF_clean s.indexC s.worktreeC k
    rw [show (gitCleanUntracked s).worktreeC =
      s.worktreeC.filter (fun e => (lookupF s.indexC e.1).isSome) from rfl, hl] at h
    by_cases hp : (lookupF s.indexC k).isSome = true
    · exact hp
    · rw [if_neg hp] at h
      simp at h
  · intro k h
    have hl := lookupF_clean s.indexC s.worktreeC k
    rw [show (gitCleanUntracked s).worktreeC =
      s.worktreeC.filter (fun e => (lookupF s.indexC e.1).isSome) from rfl, hl]
    rw [if_pos h]

/-- Claim C7 (amended): after `ensureCleanState` runs, every surviving
working-tree path is tracked in the index (no untracked files remain), but
the index and the last commit are both untouched - the reset guard requires
a non-nil command error, which the runner never produces for a non-zero
exit, so staged changes survive - and the working-tree content of every
tracked path is exactly what it was before the call, so unstaged
modifications to tracked files are NOT reverted either. -/
theorem ensureCleanState_spec (s : GitState) :
    (ensureCleanState s).indexC = s.indexC ∧
    (ensureCleanState s).headC = s.headC ∧
    (∀ k, (lookupF (ensureCleanState s).worktreeC k).isSome = true →
      (lookupF (ensureCleanState s).indexC k).isSome = true) ∧
    (∀ k, (lookupF (ensureCleanState s).indexC k).isSome = true →
      lookupF (ensureCleanState s).worktreeC k = lookupF s.worktreeC k) := by
  have t1 : (trimSpace "" != "") = false := by decide
  have t2 : (trimSpace " M f" != "") = true := by decide
  have herr : (runStagedDiffCheck s).err = false := by
    unfold runStagedDiffCheck
    split <;> rfl
  by_cases hq : (mapEq s.indexC s.headC && mapEq s.worktreeC s.indexC) = true
  · have hx : ensureCleanState s = s := by
      simp [ensureCleanState, herr, runStatusPorcelain, hq, t1]
    rw [hx]
    refine ⟨rfl, rfl, ?_, fun k _ => rfl⟩
    intro k h
    have hw : mapEq s.worktreeC s.indexC = true := by
      simp only [Bool.and_eq_true] at hq
      exact hq.2
    rw [← (mapEq_iff _ _).mp hw k]
    exact h
  · have hx : ensureCleanState s = gitCleanUntracked s := by
      simp [ensureCleanState, herr, runStatusPorcelain, hq, t2]
    rw [hx]
    refine ⟨rfl, rfl, ?_, ?_⟩
    · intro k h
      exact (cleanUntracked_props s).2.2.1 k h
    · intro k h
      exact (cleanUntracked_props s).2.2.2 k h

/-- A working copy that deviates from the last commit in both remaining
ways: a staged change of the tracked file "g" (index differs from the
commit) and an unstaged modification of the tracked file "f". -/
def dirtyWorktree : GitState :=
  ⟨[("f", [0]), ("g", [0])], [("f", [0]), ("g", [1])], [("f", [1]), ("g", [1])]⟩

/-- Claim C7 counterexample: after `ensureCleanState` returns successfully
on a working copy with a staged change and an unstaged modification, the
index still differs from the last commit (the staged change survives: the
reset guard never fires because the diff command reports a nil error on
exit code 1) and the working tree still differs from the last commit (the
modification survives) - the working copy does NOT exactly match the
tracked branch's last commit. -/
theorem ensureCleanState_not_exact_match :
    mapEq (ensureCleanState dirtyWorktree).indexC
      (ensureCleanState dirtyWorktree).headC = false ∧
    mapEq (ensureCleanState dirtyWorktree).worktreeC
      (ensureCleanState dirtyWorktree).headC = false ∧
    lookupF (ensureCleanState dirtyWorktree).worktreeC "f" ≠
      lookupF (ensureCleanState dirtyWorktree).headC "f" := by
  refine ⟨?_, ?_, ?_⟩
  · decide
  · decide
  · decide

mutual
/-- A filesystem node: a regular file with byte content, or a directory. -/
inductive FSNode where
  | file (content : List Nat)
  | dir (entries : FSEntries)
/-- Directory entries: a list of named child nodes. -/
inductive FSEntries where
  | nil
  | cons (name : String) (node : FSNode) (rest : FSEntries)
end

instance : Inhabited FSNode := ⟨FSNode.file []⟩

instance : Inhabited FSEntries := ⟨FSEntries.nil⟩

/-- Lookup of a child by name (first binding wins). -/
def FSEntries.lookupE : FSEntries → String → Option FSNode
  | .nil, _ => none
  | .cons n x rest, k => if n = k then some x else rest.lookupE k

/-- Number of entries in a directory (os.ReadDir length). -/
def FSEntries.lengthE : FSEntries → Nat
  | .nil => 0
  | .cons _ _ rest => 1 + rest.lengthE

/-- The IsDir bit of a stat result. -/
def FSNode.isDirB : FSNode → Bool
  | .file _ => false
  | .dir _ => true

mutual
/-- Model of filepath.Walk rooted at a node: the visited relative paths
(the root itself is the empty path, Go's ".") paired with the visited
node. -/
def FSNode.walk : FSNode → List (List String × FSNode)
  | .file c => [([], .file c)]
  | .dir es => ([], .dir es) :: FSEntries.walkE es
/-- Walk of the children of a directory, with names prepended. -/
def FSEntries.walkE : FSEntries → List (List String × FSNode)
  | .nil => []
  | .cons n x rest =>
      (FSNode.walk x).map (fun pr => (n :: pr.1, pr.2)) ++ FSEntries.walkE rest
end

/-- Lookup of a relative path in a walk result (models the Go map access;
first binding wins). -/
def lookupP : List (List String × FSNode) → List String → Option FSNode
  | [], _ => none
  | (q, n) :: rest, p => if q = p then some n else lookupP rest p

/-- Model of `hasFileChanges`: read both files and compare byte-for-byte;
reading a directory as a file is an I/O error. -/
def hasFileChanges (localN repoN : FSNode) : Except String Bool :=
  match localN with
  | .dir _ => .error "failed to read local file"
  | .file lc =>
    match repoN with
    | .dir _ => .error "failed to read repo file"
    | .file rc => .ok (decide (lc ≠ rc))

/-- The per-entry loop of `hasDirectoryChanges`, iterating over the local
walk: a local path missing from the repo walk is a change; a local
directory is skipped without inspecting the repo side; a local file is
compared byte-for-byte via `hasFileChanges`. -/
def chLoop (rf : List (List String × FSNode)) :
    List (List String × FSNode) → Except String Bool
  | [] => .ok false
  | (p, n) :: rest =>
    match lookupP rf p with
    | none => .ok true
    | some rn =>
      match n with
      | .dir _ => chLoop rf rest
      | .file lc =>
        match hasFileChanges (.file lc) rn with
        | .error e => .error e
        | .ok true => .ok true
        | .ok false => chLoop rf rest

/-- Model of `hasDirectoryChanges`: walk both directories, report changes
when the walk sizes differ, otherwise run the per-entry loop.  The Go loop
iterates over an unordered map; the model iterates in walk order, and every
property proved below about the no-changes outcome is order-independent. -/
def hasDirectoryChanges (l r : FSNode) : Except String Bool :=
  if (FSNode.walk l).length ≠ (FSNode.walk r).length then .ok true
  else chLoop (FSNode.walk r) (FSNode.walk l)

/-- Model of `hasFileOrDirChanges` on stat results (`none` = the path does
not exist): a missing local path is an error, a missing repo path is a
change, a top-level dir/file mismatch is a change, otherwise compare
directories recursively or files byte-for-byte. -/
def hasFileOrDirChanges (localN repoN : Option FSNode) : Except String Bool :=
  match localN with
  | none => .error "failed to stat local path"
  | some l =>
    match repoN with
    | none => .ok true
    | some r =>
      if l.isDirB != r.isDirB then .ok true
      else if l.isDirB then hasDirectoryChanges l r
      else hasFileChanges l r

/-- Model of `handleNewApp`: a missing local path is an error; a directory
with at least one entry or a file of positive size is a change; an empty
local source is the no-changes outcome. -/
def handleNewApp (localN : Option FSNode) : Except String Bool :=
  match localN with
  | none => .error "local config path is invalid"
  | some (.dir es) => if es.lengthE > 0 then .ok true else .ok false
  | some (.file c) => if c.length > 0 then .ok true else .ok false

/-- Model of `hasAppConfigChanges`: a repo path that does not exist with a
non-empty local source is a change, with an empty or missing local source an
error; otherwise delegate to `hasFileOrDirChanges`. -/
def hasAppConfigChanges (localN repoN : Option FSNode) : Except String Bool :=
  match repoN with
  | none =>
    match localN with
    | some (.dir es) =>
      if es.lengthE > 0 then .ok true
      else .error "local config path is empty or invalid"
    | some (.file c) =>
      if c.length > 0 then .ok true
      else .error "local config path is empty or invalid"
    | none => .error "local config path is empty or invalid"
  | some r => hasFileOrDirChanges localN (some r)

/-- Model of `handleExistingApp`: delegate to the change comparison (with
the repo path known to exist). -/
def handleExistingApp (localN : Option FSNode) (r : FSNode) : Except String Bool :=
  hasAppConfigChanges localN (some r)

/-- Model of `checkForChanges`: route to the new-app handler when the repo
target path does not exist, otherwise to the existing-app handler. -/
def checkForChanges (localN repoN : Option FSNode) : Except String Bool :=
  match repoN with
  | none => handleNewApp localN
  | some r => handleExistingApp localN r

/-- Nonemptiness of a local source in the sense of the spec: a file of
positive size, or a directory containing at least one entry. -/
def nonEmptyNode : FSNode → Bool
  | .file c => decide (c.length > 0)
  | .dir es => decide (es.lengthE > 0)

example :
    checkForChanges (some (.dir (.cons "a" (.file [1]) .nil))) none =
      Except.ok true := rfl

example :
    FSNode.walk (.dir (.cons "a" (.dir .nil) .nil)) =
      [([], .dir (.cons "a" (.dir .nil) .nil)), (["a"], .dir .nil)] := rfl

example :
    hasFileOrDirChanges (some (.dir (.cons "a" (.dir .nil) .nil)))
      (some (.dir (.cons "a" (.file [1]) .nil))) = Except.ok false := rfl

/-- Claim C5 counterexample: for a new target (repo path absent), a missing
local source makes `checkForChanges` return an error, not the no-changes
outcome the claim asserts. -/
theorem missing_local_source_is_error :
    checkForChanges none none = Except.error "local config path is invalid" ∧
    checkForChanges none none ≠ Except.ok false := by
  constructor
  · rfl
  · decide

/-- Claim C5 (amended): for a new target, change detection reports changes
exactly when the local source exists and is non-empty, reports no-changes
exactly when the local source exists and is empty, and returns an error
exactly when the local source is missing (so in no case is a commit
attempted on an empty or missing source). -/
theorem newTarget_changes_iff (localN : Option FSNode) :
    (checkForChanges localN none = Except.ok true ↔
      ∃ n, localN = some n ∧ nonEmptyNode n = true) ∧
    (checkForChanges localN none = Except.ok false ↔
      ∃ n, localN = some n ∧ nonEmptyNode n = false) ∧
    (checkForChanges localN none = Except.error "local config path is invalid" ↔
      localN = none) := by
  refine ⟨?_, ?_, ?_⟩ <;>
  · match localN with
    | none => simp [checkForChanges, handleNewApp]
    | some (.file c) =>
      by_cases h : c.length > 0 <;>
        simp [checkForChanges, handleNewApp, nonEmptyNode, h]
    | some (.dir es) =>
      by_cases h : es.lengthE > 0 <;>
        simp [checkForChanges, handleNewApp, nonEmptyNode, h]

/-- A local walk entry is unproblematic for the repo walk `rf` when its
path resolves in `rf` and it is either a local directory (skipped by the
loop) or a file whose repo counterpart is a file with equal bytes. -/
def okEntry (rf : List (List String × FSNode)) (x : List String × FSNode) : Prop :=
  ∃ rn, lookupP rf x.1 = some rn ∧
    (x.2.isDirB = true ∨
      ∃ lc rc, x.2 = FSNode.file lc ∧ rn = FSNode.file rc ∧ lc = rc)

/-- Characterization of the per-entry loop of `hasDirectoryChanges`: it
reports no changes exactly when every local walk entry is unproblematic. -/
theorem chLoop_ok_false_iff (rf lf : List (List String × FSNode)) :
    chLoop rf lf = Except.ok false ↔ ∀ x ∈ lf, okEntry rf x := by
  induction lf with
  | nil => simp [chLoop]
  | cons e rest ih =>
    obtain ⟨p0, n0⟩ := e
    rcases hre : lookupP rf p0 with _ | rn
    · simp [chLoop, hre, List.forall_mem_cons, okEntry]
    · cases n0 with
      | dir es =>
        simp [chLoop, hre, List.forall_mem_cons, okEntry, FSNode.isDirB, ih]
      | file lc =>
        cases rn with
        | dir res =>
          simp [chLoop, hre, hasFileChanges, List.forall_mem_cons, okEntry,
            FSNode.isDirB]
        | file rc =>
          by_cases hlc : lc = rc
          · subst hlc
            have hstep : chLoop rf ((p0, FSNode.file lc) :: rest) =
                chLoop rf rest := by
              simp [chLoop, hre, hasFileChanges]
            rw [hstep, ih]
            constructor
            · intro h x hx
              rcases List.mem_cons.mp hx with rfl | hx2
              · exact ⟨.file lc, hre, Or.inr ⟨lc, lc, rfl, rfl, rfl⟩⟩
              · exact h x hx2
            · intro h x hx
              exact h x (List.mem_cons_of_mem _ hx)
          · have hstep : chLoop rf ((p0, FSNode.file lc) :: rest) =
                Except.ok true := by
              simp [chLoop, hre, hasFileChanges, hlc]
            rw [hstep]
            constructor
            · intro h
              exact absurd h (by simp)
            · intro h
              exfalso
              obtain ⟨rn, hrn, hca⟩ := h (p0, FSNode.file lc) (List.mem_cons_self _ _)
              have hrn2 : lookupP rf p0 = some rn := hrn
              have heq : FSNode.file rc = rn :=
                Option.some.inj (hre.symm.trans hrn2)
              subst heq
              rcases hca with hd | ⟨lc2, rc2, h1, h2, h3⟩
              · have hd2 : FSNode.isDirB (FSNode.file lc) = true := hd
                simp [FSNode.isDirB] at hd2
              · have h1b : FSNode.file lc = FSNode.file lc2 := h1
                injection h1b with h1c
                injection h2 with h2c
                exact hlc (h1c.trans (h3.trans h2c.symm))

/-- Claim C6 (amended): for an existing directory target,
`hasDirectoryChanges` reports no changes if and only if both recursive
walks have the same number of paths and every local path resolves in the
repo walk such that a local directory is skipped unconditionally (even when
the repo side is a regular file) and a local regular file is paired with a
byte-identical repo regular file.  In particular a local directory paired
with a repo file is NOT reported as a change, and a local file paired with
a repo directory yields an error rather than a changes-report. -/
theorem hasDirectoryChanges_noChanges_iff (l r : FSNode) :
    hasDirectoryChanges l r = Except.ok false ↔
      ((FSNode.walk l).length = (FSNode.walk r).length ∧
        ∀ x ∈ FSNode.walk l, okEntry (FSNode.walk r) x) := by
  by_cases hlen : (FSNode.walk l).length = (FSNode.walk r).length
  · simp [hasDirectoryChanges, hlen, chLoop_ok_false_iff]
  · simp [hasDirectoryChanges, hlen]

/-- Local side of the C6 counterexample: a directory containing the empty
directory "a". -/
def nestedDirLocal : FSNode := .dir (.cons "a" (.dir .nil) .nil)

/-- Repo side of the C6 counterexample: a directory containing the regular
file "a". -/
def nestedFileRepo : FSNode := .dir (.cons "a" (.file [1]) .nil)

/-- Predicate following the claim C6 wording: changes exist when the walk
sizes differ, or some path present on both sides pairs a directory with a
file, or some common regular file differs byte-for-byte. -/
def specDirChanges (l r : FSNode) : Bool :=
  let lf := FSNode.walk l
  let rf := FSNode.walk r
  decide (lf.length ≠ rf.length) ||
  lf.any (fun pr =>
    match lookupP rf pr.1 with
    | none => false
    | some rn =>
      (pr.2.isDirB != rn.isDirB) ||
      (match pr.2, rn with
        | .file lc, .file rc => decide (lc ≠ rc)
        | _, _ => false))

/-- Claim C6 counterexample: an empty local directory "a" paired with a
repo regular file "a" is a dir/file mismatch by the claim wording, yet the
code reports no changes, because the loop skips every local directory
without inspecting the repo side. -/
theorem nested_dir_file_mismatch_not_reported :
    hasFileOrDirChanges (some nestedDirLocal) (some nestedFileRepo) =
      Except.ok false ∧
    specDirChanges nestedDirLocal nestedFileRepo = true := by
  constructor
  · rfl
  · rfl

/-- Update (or append) the binding of a name in directory entries,
modelling a single file/directory creation or overwrite in the
destination. -/
def setEntry : FSEntries → String → FSNode → FSEntries
  | .nil, n, v => .cons n v .nil
  | .cons m x rest, n, v =>
    if m = n then .cons m v rest else .cons m x (setEntry rest n v)

mutual
/-- Modelled from the spec: `utils.CopyFileSimple` and
`utils.EnsureDirectory` are not under src; per section 4.6 step 7 the copy
overwrites existing files and creates directories, so copying a file onto
an existing file (or onto nothing) replaces it, copying a file onto an
existing directory is an I/O error, `MkdirAll` over an existing file is an
error and over an existing directory is a no-op, after which the source
directory contents are merged in. -/
def copyNode : FSNode → Option FSNode → Except String FSNode
  | .file _, some (.dir _) => .error "copy file onto directory"
  | .file c, some (.file _) => .ok (.file c)
  | .file c, none => .ok (.file c)
  | .dir _, some (.file _) => .error "mkdir over existing file"
  | .dir ses, some (.dir des) => (copyEntries ses des).map .dir
  | .dir ses, none => (copyEntries ses .nil).map .dir
/-- The entry-by-entry merge of source entries into destination entries:
each source child is copied onto the destination child of the same name
(overwriting files, recursing into directories) and destination children
absent from the source are left in place. -/
def copyEntries : FSEntries → FSEntries → Except String FSEntries
  | .nil, des => .ok des
  | .cons n sc rest, des =>
    match copyNode sc (des.lookupE n) with
    | .error e => .error e
    | .ok out => copyEntries rest (setEntry des n out)
end

/-- Model of `copyDirectoryContents`: walk the source directory and copy
every file and directory onto the corresponding repo-relative destination
path; as an end-state function this is the entry-by-entry mirror merge. -/
def copyDirectoryContents (src des : FSEntries) : Except String FSEntries :=
  copyEntries src des

/-- Path lookup in directory entries: follow each component through
directories; a file on a proper prefix ends the search. -/
def getPathE : FSEntries → List String → Option FSNode
  | _, [] => none
  | es, [k] => es.lookupE k
  | es, k :: k2 :: rest =>
    match es.lookupE k with
    | some (.dir es2) => getPathE es2 (k2 :: rest)
    | _ => none

/-- Name membership in directory entries. -/
def memNames : FSEntries → String → Bool
  | .nil, _ => false
  | .cons m _ rest, n => decide (m = n) || memNames rest n

mutual
/-- Well-formedness of a node: entry names are unique at every level, as on
a real filesystem. -/
def wfN : FSNode → Bool
  | .file _ => true
  | .dir es => wfE es
/-- Well-formedness of directory entries. -/
def wfE : FSEntries → Bool
  | .nil => true
  | .cons n x rest => !(memNames rest n) && wfN x && wfE rest
end

/-- Lookup misses absent names. -/
theorem lookupE_none_of_not_memNames :
    ∀ (es : FSEntries) (n : String), memNames es n = false →
      es.lookupE n = none
  | .nil, _, _ => rfl
  | .cons m x rest, n, h => by
    simp only [memNames, Bool.or_eq_false_iff, decide_eq_false_iff_not] at h
    simp [FSEntries.lookupE, h.1,
      lookupE_none_of_not_memNames rest n h.2]

/-- Lookup after a `setEntry` update. -/
theorem lookupE_setEntry :
    ∀ (des : FSEntries) (n : String) (v : FSNode) (m : String),
      (setEntry des n v).lookupE m = if n = m then some v else des.lookupE m
  | .nil, n, v, m => by
    simp [setEntry, FSEntries.lookupE]
  | .cons k x rest, n, v, m => by
    by_cases hkn : k = n
    · subst hkn
      by_cases hkm : k = m <;>
        simp [setEntry, FSEntries.lookupE, hkm]
    · by_cases hkm : k = m
      · subst hkm
        have hnm : ¬n = k := fun h => hkn h.symm
        simp [setEntry, FSEntries.lookupE, hkn, hnm]
      · simp [setEntry, FSEntries.lookupE, hkn, hkm,
          lookupE_setEntry rest n v m]

/-- A successful merge leaves destination entries whose names are absent
from the source untouched. -/
theorem copyEntries_lookup_absent :
    ∀ (ses des res : FSEntries) (n : String),
      copyEntries ses des = Except.ok res → ses.lookupE n = none →
      res.lookupE n = des.lookupE n
  | .nil, des, res, n, h, _ => by
    simp only [copyEntries] at h
    injection h with h2
    rw [← h2]
  | .cons m sc rest, des, res, n, h, hs => by
    by_cases hmn : m = n
    · rw [show (FSEntries.cons m sc rest).lookupE n = some sc from by
        simp [FSEntries.lookupE, hmn]] at hs
      exact absurd hs (by simp)
    · have hs2 : rest.lookupE n = none := by
        rw [show (FSEntries.cons m sc rest).lookupE n = rest.lookupE n from by
          simp [FSEntries.lookupE, hmn]] at hs
        exact hs
      simp only [copyEntries] at h
      rcases hcn : copyNode sc (des.lookupE m) with e | out
      · rw [hcn] at h
        exact absurd h (by simp)
      · rw [hcn] at h
        simp only at h
        have := copyEntries_lookup_absent rest (setEntry des m out) res n h hs2
        rw [this, lookupE_setEntry des m out n]
        simp [hmn]

/-- The node found at a name of a well-formed directory is well-formed. -/
theorem wfN_of_lookupE :
    ∀ (es : FSEntries) (n : String) (x : FSNode), wfE es = true →
      es.lookupE n = some x → wfN x = true
  | .nil, _, _, _, h => by simp [FSEntries.lookupE] at h
  | .cons m y rest, n, x, hwf, h => by
    simp only [wfE, Bool.and_eq_true] at hwf
    by_cases hmn : m = n
    · rw [show (FSEntries.cons m y rest).lookupE n = some y from by
        simp [FSEntries.lookupE, hmn]] at h
      injection h with h2
      rw [← h2]
      exact hwf.1.2
    · rw [show (FSEntries.cons m y rest).lookupE n = rest.lookupE n from by
        simp [FSEntries.lookupE, hmn]] at h
      exact wfN_of_lookupE rest n x hwf.2 h

/-- A successful merge copies every named source child onto the
corresponding destination child. -/
theorem copyEntries_lookup_present :
    ∀ (ses des res : FSEntries) (n : String) (sn : FSNode),
      wfE ses = true → copyEntries ses des = Except.ok res →
      ses.lookupE n = some sn →
      ∃ out, copyNode sn (des.lookupE n) = Except.ok out ∧
        res.lookupE n = some out
  | .nil, _, _, n, _, _, _, hl => by simp [FSEntries.lookupE] at hl
  | .cons m sc rest, des, res, n, sn, hwf, h, hl => by
    simp only [wfE, Bool.and_eq_true, Bool.not_eq_true'] at hwf
    simp only [copyEntries] at h
    rcases hcn : copyNode sc (des.lookupE m) with e | out0
    · rw [hcn] at h
      exact absurd h (by simp)
    · rw [hcn] at h
      simp only at h
      by_cases hmn : m = n
      · subst hmn
        rw [show (FSEntries.cons m sc rest).lookupE m = some sc from by
          simp [FSEntries.lookupE]] at hl
        injection hl with hl2
        subst hl2
        refine ⟨out0, hcn, ?_⟩
        have hrnone : rest.lookupE m = none :=
          lookupE_none_of_not_memNames rest m hwf.1.1
        rw [copyEntries_lookup_absent rest (setEntry des m out0) res m h hrnone,
          lookupE_setEntry des m out0 m]
        simp
      · rw [show (FSEntries.cons m sc rest).lookupE n = rest.lookupE n from by
          simp [FSEntries.lookupE, hmn]] at hl
        obtain ⟨out, hout, hres⟩ :=
          copyEntries_lookup_present rest (setEntry des m out0) res n sn
            hwf.2 h hl
        rw [lookupE_setEntry des m out0 n] at hout
        rw [if_neg hmn] at hout
        exact ⟨out, hout, hres⟩

/-- Claim C8: staging a directory target is a mirror-merge.  For every
path that holds a regular file in the destination before the copy and is
absent from the source tree, a successful `copyDirectoryContents` leaves
that file in place with its content intact: the copy only adds and
overwrites, it never deletes. -/
theorem copyDirectoryContents_preserves_orphans :
    ∀ (p : List String) (ses des res : FSEntries) (c : List Nat),
      wfE ses = true → copyDirectoryContents ses des = Except.ok res →
      getPathE des p = some (FSNode.file c) → getPathE ses p = none →
      getPathE res p = some (FSNode.file c)
  | [], _, _, _, _, _, _, hdst, _ => by simp [getPathE] at hdst
  | [k], ses, des, res, c, hwf, hcopy, hdst, hsrc => by
    have h2 := copyEntries_lookup_absent ses des res k hcopy hsrc
    show res.lookupE k = some (FSNode.file c)
    rw [h2]
    exact hdst
  | k :: k2 :: rest, ses, des, res, c, hwf, hcopy, hdst, hsrc => by
    rcases hdk : des.lookupE k with _ | dn
    · rw [show getPathE des (k :: k2 :: rest) = none from by
        simp [getPathE, hdk]] at hdst
      exact absurd hdst (by simp)
    · cases dn with
      | file dc =>
        rw [show getPathE des (k :: k2 :: rest) = none from by
          simp [getPathE, hdk]] at hdst
        exact absurd hdst (by simp)
      | dir des2 =>
        have hdst2 : getPathE des2 (k2 :: rest) = some (FSNode.file c) := by
          rw [show getPathE des (k :: k2 :: rest) =
            getPathE des2 (k2 :: rest) from by simp [getPathE, hdk]] at hdst
          exact hdst
        rcases hsk : ses.lookupE k with _ | sn
        · have h2 := copyEntries_lookup_absent ses des res k hcopy hsk
          rw [show getPathE res (k :: k2 :: rest) =
            match res.lookupE k with
            | some (.dir es2) => getPathE es2 (k2 :: rest)
            | _ => none from rfl]
          rw [h2, hdk]
          exact hdst2
        · obtain ⟨out, hout, hres⟩ :=
            copyEntries_lookup_present ses des res k sn hwf hcopy hsk
          cases sn with
          | file sc =>
            rw [hdk] at hout
            simp [copyNode] at hout
          | dir ses2 =>
            rw [hdk] at hout
            have hsrc2 : getPathE ses2 (k2 :: rest) = none := by
              rw [show getPathE ses (k :: k2 :: rest) =
                getPathE ses2 (k2 :: rest) from by simp [getPathE, hsk]] at hsrc
              exact hsrc
            have hwf2 : wfE ses2 = true :=
              wfN_of_lookupE ses k (FSNode.dir ses2) hwf hsk
            rcases hce : copyEntries ses2 des2 with e | res2
            · rw [show copyNode (FSNode.dir ses2) (some (FSNode.dir des2)) =
                (copyEntries ses2 des2).map FSNode.dir from rfl, hce] at hout
              exact absurd hout (by simp [Except.map])
            · rw [show copyNode (FSNode.dir ses2) (some (FSNode.dir des2)) =
                (copyEntries ses2 des2).map FSNode.dir from rfl, hce] at hout
              simp only [Except.map] at hout
              injection hout with hout2
              subst hout2
              have hrec :=
                copyDirectoryContents_preserves_orphans (k2 :: rest)
                  ses2 des2 res2 c hwf2 hce hdst2 hsrc2
              rw [show getPathE res (k :: k2 :: rest) =
                match res.lookupE k with
                | some (.dir es2) => getPathE es2 (k2 :: rest)
                | _ => none from rfl]
              rw [hres]
              exact hrec

/-- Witness for C8: source adds the file "x", destination already holds the
orphaned file "old"; after the merge "old" survives with its content. -/
theorem copyDirectoryContents_preserves_orphans_witness :
    getPathE (.cons "old" (.file [9]) (.cons "x" (.file [1]) .nil)) ["old"] =
      some (FSNode.file [9]) :=
  copyDirectoryContents_preserves_orphans ["old"]
    (.cons "x" (.file [1]) .nil)
    (.cons "old" (.file [9]) .nil)
    (.cons "old" (.file [9]) (.cons "x" (.file [1]) .nil))
    [9] rfl rfl rfl rfl
